import Mathlib

/-!
Shallow embedding of the Word-document comparison tool in `src/app.py`:
the document-model extraction (paragraphs, content controls, comments,
tables) and the positional diff engine, together with proofs of the
specification's claims about them.
-/

/-- Structured diff record, one per `result.append` in `compare_paragraphs`
(app.py lines 111-118) and `compare_tables` (lines 139-146): the location
and the old/new values that each appended report string carries. Indices
are 1-based, exactly as printed in the report strings. -/
inductive DiffRecord where
  | parTextDiff (index : Nat) (old new : String)
  | parCommentDiff (index : Nat) (old new : List String)
  | tableCellDiff (table row cell : Nat) (old new : String)
  | rowCountMismatch (table row : Nat) (oldCount newCount : Nat)
  | tableRowCountMismatch (table : Nat) (oldCount newCount : Nat)
  deriving DecidableEq

/-- Body of the paragraph loop of app.py `compare_paragraphs` (lines
109-118) at index `i`: first the text difference, then the comment
difference, each emitted only when the sides differ. -/
def parBlock (i : Nat) (e1 e2 : String × List String) : List DiffRecord :=
  (if e1.1 ≠ e2.1 then [DiffRecord.parTextDiff (i + 1) e1.1 e2.1] else []) ++
  (if e1.2 ≠ e2.2 then [DiffRecord.parCommentDiff (i + 1) e1.2 e2.2] else [])

/-- app.py `compare_paragraphs` (lines 101-119): iterate `i` over
`range (max len1 len2)`, substituting `("", [])` for an index past a
list's end. -/
def compare_paragraphs (paragraphs1 paragraphs2 : List (String × List String)) :
    List DiffRecord :=
  (List.range (max paragraphs1.length paragraphs2.length)).flatMap fun i =>
    parBlock i (paragraphs1.getD i ("", [])) (paragraphs2.getD i ("", []))

/-- Cell loop of app.py `compare_tables` (lines 136-142) for row `r` of
table `t`: a missing cell on either side is compared as `""`. -/
def compareCells (t r : Nat) (row1 row2 : List String) : List DiffRecord :=
  (List.range (max row1.length row2.length)).flatMap fun c =>
    if row1.getD c "" ≠ row2.getD c "" then
      [DiffRecord.tableCellDiff (t + 1) (r + 1) (c + 1) (row1.getD c "") (row2.getD c "")]
    else []

/-- Row body of app.py `compare_tables` (lines 133-144): the cell loop,
then a `RowCountMismatch` when the two rows' raw cell counts differ. -/
def compareRow (t r : Nat) (row1 row2 : List String) : List DiffRecord :=
  compareCells t r row1 row2 ++
  (if row1.length ≠ row2.length then
    [DiffRecord.rowCountMismatch (t + 1) (r + 1) row1.length row2.length] else [])

/-- Table body of app.py `compare_tables` (lines 129-146): the row loop
(a missing row on either side becomes `[]`), then a
`TableRowCountMismatch` when the raw row counts differ. -/
def compareTable (t : Nat) (table1 table2 : List (List String)) : List DiffRecord :=
  ((List.range (max table1.length table2.length)).flatMap fun r =>
    compareRow t r (table1.getD r []) (table2.getD r [])) ++
  (if table1.length ≠ table2.length then
    [DiffRecord.tableRowCountMismatch (t + 1) table1.length table2.length] else [])

/-- app.py `compare_tables` (lines 121-147): iterate over
`range (max tableCount1 tableCount2)`; a missing table on either side
becomes the empty table `[]`. -/
def compare_tables (tables1 tables2 : List (List (List String))) : List DiffRecord :=
  (List.range (max tables1.length tables2.length)).flatMap fun t =>
    compareTable t (tables1.getD t []) (tables2.getD t [])

/-- An XML element tree in ElementTree's model: a tag, an attribute map,
the text directly before the first child, the child elements, and the
tail text that follows the element's closing tag inside its parent. -/
inductive XmlE where
  | mk (tag : String) (attrib : List (String × String)) (text : String)
      (children : List XmlE) (tail : String)

def XmlE.tag : XmlE → String
  | .mk t _ _ _ _ => t

def XmlE.attrib : XmlE → List (String × String)
  | .mk _ a _ _ _ => a

def XmlE.text : XmlE → String
  | .mk _ _ x _ _ => x

def XmlE.children : XmlE → List XmlE
  | .mk _ _ _ cs _ => cs

def XmlE.tail : XmlE → String
  | .mk _ _ _ _ tl => tl

mutual

/-- ElementTree `itertext()` joined into one string: the element's own
text, then for each child its itertext followed by the child's tail. -/
def XmlE.itertext : XmlE → String
  | .mk _ _ x cs _ => x ++ XmlE.itertextList cs

def XmlE.itertextList : List XmlE → String
  | [] => ""
  | c :: rest => XmlE.itertext c ++ c.tail ++ XmlE.itertextList rest

end

mutual

/-- ElementTree `iter(tag)`: the element itself when its tag matches,
then every matching descendant, in document (pre-order) order. -/
def XmlE.iterTag (tag : String) : XmlE → List XmlE
  | .mk t a x cs tl =>
    (if t = tag then [XmlE.mk t a x cs tl] else []) ++ XmlE.iterTagList tag cs

def XmlE.iterTagList (tag : String) : List XmlE → List XmlE
  | [] => []
  | c :: rest => XmlE.iterTag tag c ++ XmlE.iterTagList tag rest

end

mutual

/-- ElementTree `iter()` with no tag: every element of the subtree,
the element itself first, in document (pre-order) order. -/
def XmlE.iterAll : XmlE → List XmlE
  | .mk t a x cs tl => XmlE.mk t a x cs tl :: XmlE.iterAllList cs

def XmlE.iterAllList : List XmlE → List XmlE
  | [] => []
  | c :: rest => XmlE.iterAll c ++ XmlE.iterAllList rest

end

/-- ElementTree `find(tag)`: the first DIRECT child carrying the tag. -/
def XmlE.findChild (e : XmlE) (tag : String) : Option XmlE :=
  e.children.find? fun c => c.tag == tag

/-- Python `str.strip()`: drop leading and trailing whitespace. -/
def pyStrip (s : String) : String :=
  String.mk (((s.data.dropWhile Char.isWhitespace).reverse.dropWhile Char.isWhitespace).reverse)

/-- Python `str.endswith(pat)`. -/
def pyEndsWith (s pat : String) : Bool :=
  pat.data.isSuffixOf s.data

/-- The WordprocessingML namespace URI used throughout app.py. -/
def wNs : String := "http://schemas.openxmlformats.org/wordprocessingml/2006/main"

/-- The fully qualified tag `\x7bns\x7dlocal` app.py builds by string
formatting. -/
def wTag (localName : String) : String := "\x7b" ++ wNs ++ "\x7d" ++ localName

/-- Loop body of app.py `get_text_from_content_controls` (lines 16-21):
one `w:sdt` node contributes the stripped concatenated text of its
direct `w:sdtContent` child when that child exists and the stripped text
is non-empty. -/
def sdtEntry (sdt : XmlE) : Option String :=
  match sdt.findChild (wTag "sdtContent") with
  | some sdt_content =>
    let content_text := pyStrip sdt_content.itertext
    if content_text ≠ "" then some content_text else none
  | none => none

/-- app.py `get_text_from_content_controls` (lines 9-22): for every
`w:sdt` node reachable from `element` (nested ones included, and
`element` itself if it is one), take its direct `w:sdtContent` child's
concatenated text, strip it, keep it when non-empty, and join the kept
texts with single spaces. -/
def get_text_from_content_controls (element : XmlE) : String :=
  String.intercalate " " ((XmlE.iterTag (wTag "sdt") element).filterMap sdtEntry)

/-- app.py `get_full_paragraph_text` (lines 43-54) with the fallible
`get_text_from_content_controls` call made explicit as an `Except`
argument: on success a non-empty field text is appended after a space;
on failure the `except` branch keeps the plain text already read; either
way the result is stripped. -/
def get_full_paragraph_textE (text : String) (sdtResult : Except Unit String) : String :=
  match sdtResult with
  | Except.ok sdt_text => pyStrip (if sdt_text ≠ "" then text ++ " " ++ sdt_text else text)
  | Except.error _ => pyStrip text

/-- One paragraph as python-docx hands it to app.py: its `.text` and its
underlying `w:p` XML element (`._p`). -/
structure Para where
  text : String
  xml : XmlE

/-- app.py `get_full_paragraph_text` in the pure model, where the XML
walk always succeeds. -/
def get_full_paragraph_text (para : Para) : String :=
  get_full_paragraph_textE para.text
    (Except.ok (get_text_from_content_controls para.xml))

/-- Inner loop of app.py `extract_docx_paragraphs_and_comments` (lines
67-72): every element under the paragraph whose tag ends with
`commentRangeStart` contributes the comment text its `w:id` attribute
resolves to in the comment map; unresolved or absent ids are skipped. -/
def commentTexts (p : XmlE) (comments : String → Option String) : List String :=
  (XmlE.iterAll p).filterMap fun elem =>
    if pyEndsWith elem.tag "commentRangeStart" then
      match elem.attrib.lookup (wTag "id") with
      | some cid => comments cid
      | none => none
    else none

/-- app.py `extract_docx_paragraphs_and_comments` (lines 56-74): keep
each paragraph whose full text is non-empty, paired with its resolved
comment texts; a paragraph with empty full text is skipped entirely. -/
def extract_docx_paragraphs_and_comments (paras : List Para)
    (comments : String → Option String) : List (String × List String) :=
  paras.flatMap fun para =>
    if get_full_paragraph_text para ≠ "" then
      [(get_full_paragraph_text para, commentTexts para.xml comments)]
    else []

/-- A document body holding one content control whose content region has
text `u` followed by a second content control nested inside it whose
content region has text `t`. -/
def nestedSdtDoc (u t : String) : XmlE :=
  XmlE.mk "body" [] ""
    [XmlE.mk (wTag "sdt") [] ""
      [XmlE.mk (wTag "sdtContent") [] u
        [XmlE.mk (wTag "sdt") [] ""
          [XmlE.mk (wTag "sdtContent") [] t [] ""] ""] ""] ""] ""

/-- Swap the doc1/doc2 sides of a record, keeping its location. -/
def swapRec : DiffRecord → DiffRecord
  | .parTextDiff i o n => .parTextDiff i n o
  | .parCommentDiff i o n => .parCommentDiff i n o
  | .tableCellDiff t r c o n => .tableCellDiff t r c n o
  | .rowCountMismatch t r o n => .rowCountMismatch t r n o
  | .tableRowCountMismatch t o n => .tableRowCountMismatch t n o

/- ### Helper lemmas about the differ -/

theorem parBlock_self (i : Nat) (e : String × List String) : parBlock i e e = [] := by
  simp [parBlock]

theorem compare_paragraphs_self (p : List (String × List String)) :
    compare_paragraphs p p = [] := by
  unfold compare_paragraphs
  rw [List.flatMap_eq_nil_iff]
  intro i _
  exact parBlock_self _ _

theorem compareCells_self (t r : Nat) (row : List String) : compareCells t r row row = [] := by
  unfold compareCells
  rw [List.flatMap_eq_nil_iff]
  intro c _
  simp

theorem compareRow_self (t r : Nat) (row : List String) : compareRow t r row row = [] := by
  simp [compareRow, compareCells_self]

theorem compareTable_self (t : Nat) (tb : List (List String)) : compareTable t tb tb = [] := by
  unfold compareTable
  simp only [ne_eq, not_true_eq_false, if_neg, ite_false, List.append_nil, if_false]
  rw [List.flatMap_eq_nil_iff]
  intro r _
  exact compareRow_self _ _ _

theorem compare_tables_self (tb : List (List (List String))) : compare_tables tb tb = [] := by
  unfold compare_tables
  rw [List.flatMap_eq_nil_iff]
  intro t _
  exact compareTable_self _ _

theorem getD_replicate {α : Type} (d : α) : ∀ (k i : Nat), (List.replicate k d).getD i d = d
  | 0, _ => by simp [List.getD]
  | _ + 1, 0 => rfl
  | k + 1, i + 1 => getD_replicate d k i

theorem getD_append_pad {α : Type} (l : List α) (k i : Nat) (d : α) :
    (l ++ List.replicate k d).getD i d = l.getD i d := by
  rcases Nat.lt_or_ge i l.length with h | h
  · exact List.getD_append _ _ _ _ h
  · rw [List.getD_append_right _ _ _ _ h, List.getD_eq_default _ _ h, getD_replicate]

theorem flatMap_range_extend {α : Type} (f : Nat → List α) (n m : Nat) (hnm : n ≤ m)
    (h : ∀ i, n ≤ i → f i = []) :
    (List.range m).flatMap f = (List.range n).flatMap f := by
  obtain ⟨k, rfl⟩ := Nat.exists_eq_add_of_le hnm
  rw [List.range_add, List.flatMap_append, List.flatMap_map]
  have hnil : (List.range k).flatMap (fun a => f (n + a)) = [] := by
    rw [List.flatMap_eq_nil_iff]
    intro a _
    exact h _ (Nat.le_add_right n a)
  rw [hnil, List.append_nil]

theorem compare_paragraphs_pad (p1 p2 : List (String × List String)) (k1 k2 : Nat) :
    compare_paragraphs (p1 ++ List.replicate k1 ("", [])) (p2 ++ List.replicate k2 ("", []))
      = compare_paragraphs p1 p2 := by
  unfold compare_paragraphs
  have hblock : ∀ i,
      parBlock i ((p1 ++ List.replicate k1 ("", [])).getD i ("", []))
        ((p2 ++ List.replicate k2 ("", [])).getD i ("", []))
      = parBlock i (p1.getD i ("", [])) (p2.getD i ("", [])) := by
    intro i
    rw [getD_append_pad, getD_append_pad]
  rw [List.flatMap_congr (fun i _ => hblock i)]
  have hle : max p1.length p2.length ≤
      max (p1 ++ List.replicate k1 ("", [])).length (p2 ++ List.replicate k2 ("", [])).length := by
    simp only [List.length_append, List.length_replicate]
    exact max_le_max (Nat.le_add_right _ _) (Nat.le_add_right _ _)
  rw [flatMap_range_extend _ _ _ hle]
  intro i hi
  rw [List.getD_eq_default _ _ (le_trans (le_max_left _ _) hi),
    List.getD_eq_default _ _ (le_trans (le_max_right _ _) hi)]
  exact parBlock_self _ _

theorem compare_paragraphs_append (p q : List (String × List String)) :
    compare_paragraphs p (p ++ q) =
      (List.range q.length).flatMap fun j =>
        parBlock (p.length + j) ("", []) (q.getD j ("", [])) := by
  unfold compare_paragraphs
  have hmax : max p.length (p ++ q).length = p.length + q.length := by
    rw [List.length_append]
    exact Nat.max_eq_right (Nat.le_add_right _ _)
  rw [hmax, List.range_add, List.flatMap_append, List.flatMap_map]
  have hnil : (List.range p.length).flatMap
      (fun i => parBlock i (p.getD i ("", [])) ((p ++ q).getD i ("", []))) = [] := by
    rw [List.flatMap_eq_nil_iff]
    intro i hi
    rw [List.getD_append _ _ _ _ (List.mem_range.mp hi)]
    exact parBlock_self _ _
  rw [hnil, List.nil_append]
  refine List.flatMap_congr fun j _ => ?_
  rw [List.getD_eq_default _ _ (Nat.le_add_right _ _),
    List.getD_append_right _ _ _ _ (Nat.le_add_right _ _), Nat.add_sub_cancel_left]

/- ### Symmetric-swap helper lemmas -/

theorem parBlock_swap (i : Nat) (e1 e2 : String × List String) :
    parBlock i e2 e1 = (parBlock i e1 e2).map swapRec := by
  unfold parBlock
  rcases eq_or_ne e1.1 e2.1 with h1 | h1 <;> rcases eq_or_ne e1.2 e2.2 with h2 | h2
  · simp [h1, h2]
  · simp [h1, h2, Ne.symm h2, swapRec]
  · simp [h1, h2, Ne.symm h1, swapRec]
  · simp [h1, h2, Ne.symm h1, Ne.symm h2, swapRec]

theorem compareCells_swap (t r : Nat) (row1 row2 : List String) :
    compareCells t r row2 row1 = (compareCells t r row1 row2).map swapRec := by
  unfold compareCells
  rw [List.map_flatMap, Nat.max_comm row2.length row1.length]
  refine List.flatMap_congr fun c _ => ?_
  rcases eq_or_ne (row1.getD c "") (row2.getD c "") with h | h
  · simp only [List.getD, List.get?_eq_getElem?] at h
    simp [h]
  · simp only [List.getD, List.get?_eq_getElem?] at h
    simp [h, Ne.symm h, swapRec]

theorem compareRow_swap (t r : Nat) (row1 row2 : List String) :
    compareRow t r row2 row1 = (compareRow t r row1 row2).map swapRec := by
  unfold compareRow
  rw [List.map_append, compareCells_swap]
  rcases eq_or_ne row1.length row2.length with h | h
  · simp [h]
  · simp [h, Ne.symm h, swapRec]

theorem compareTable_swap (t : Nat) (tb1 tb2 : List (List String)) :
    compareTable t tb2 tb1 = (compareTable t tb1 tb2).map swapRec := by
  unfold compareTable
  rw [List.map_append, List.map_flatMap, Nat.max_comm tb2.length tb1.length]
  have hrows : ((List.range (max tb1.length tb2.length)).flatMap fun r =>
        compareRow t r (tb2.getD r []) (tb1.getD r []))
      = (List.range (max tb1.length tb2.length)).flatMap fun r =>
        (compareRow t r (tb1.getD r []) (tb2.getD r [])).map swapRec :=
    List.flatMap_congr fun r _ => compareRow_swap t r _ _
  rw [hrows]
  rcases eq_or_ne tb1.length tb2.length with h | h
  · simp [h]
  · simp [h, Ne.symm h, swapRec]

theorem compare_tables_swap (tb1 tb2 : List (List (List String))) :
    compare_tables tb2 tb1 = (compare_tables tb1 tb2).map swapRec := by
  unfold compare_tables
  rw [List.map_flatMap, Nat.max_comm tb2.length tb1.length]
  exact List.flatMap_congr fun t _ => compareTable_swap t _ _

/- ### Claim theorems (differ, concrete and algebraic) -/

/-- Claim C1: the paragraph differ iterates to the longer length and
substitutes an empty string and an empty comment list past either side's
end, so padding either input with empty paragraphs never changes the
output, and a pure length difference made of empty paragraphs yields no
record at all: a length difference alone is never reported as an error. -/
theorem claim_c1_missing_paragraphs_absent (p1 p2 : List (String × List String))
    (k1 k2 : Nat) :
    compare_paragraphs (p1 ++ List.replicate k1 ("", [])) (p2 ++ List.replicate k2 ("", []))
        = compare_paragraphs p1 p2 ∧
      compare_paragraphs p1 (p1 ++ List.replicate k1 ("", [])) = [] := by
  constructor
  · exact compare_paragraphs_pad p1 p2 k1 k2
  · have h := compare_paragraphs_pad p1 p1 0 k1
    rw [List.replicate_zero, List.append_nil] at h
    rw [h]
    exact compare_paragraphs_self p1

/-- Claim C2: in the row body of the table differ, a `RowCountMismatch`
record for that row is emitted if and only if the two rows' raw cell
counts differ, and it always carries exactly those two counts (the
per-cell loop itself never emits such a record). -/
theorem claim_c2_row_count_mismatch_iff (t r : Nat) (row1 row2 : List String)
    (a b : Nat) :
    DiffRecord.rowCountMismatch (t + 1) (r + 1) a b ∈ compareRow t r row1 row2 ↔
      a = row1.length ∧ b = row2.length ∧ row1.length ≠ row2.length := by
  unfold compareRow
  rw [List.mem_append]
  constructor
  · rintro (hmem | hmem)
    · exfalso
      unfold compareCells at hmem
      rw [List.mem_flatMap] at hmem
      obtain ⟨c, _, hc⟩ := hmem
      rcases eq_or_ne (row1.getD c "") (row2.getD c "") with h | h
      · simp [h] at hc
      · simp [h] at hc
    · rcases eq_or_ne row1.length row2.length with h | h
      · simp [h] at hmem
      · simp only [h, ne_eq, not_false_eq_true, if_pos, List.mem_singleton,
          DiffRecord.rowCountMismatch.injEq] at hmem
        exact ⟨hmem.2.2.1, hmem.2.2.2, h⟩
  · rintro ⟨rfl, rfl, hlen⟩
    right
    simp [hlen]

/-- Claim C4: swapping the two documents yields a diff record at exactly
the locations of the original comparison, with the old and new values
swapped in each record, for both the paragraph differ and the table
differ (the whole output list is the `swapRec` image, in the same
order). -/
theorem claim_c4_detection_symmetry (p1 p2 : List (String × List String))
    (tb1 tb2 : List (List (List String))) :
    compare_paragraphs p2 p1 = (compare_paragraphs p1 p2).map swapRec ∧
      compare_tables tb2 tb1 = (compare_tables tb1 tb2).map swapRec := by
  constructor
  · unfold compare_paragraphs
    rw [List.map_flatMap, Nat.max_comm p2.length p1.length]
    exact List.flatMap_congr fun i _ => parBlock_swap i _ _
  · exact compare_tables_swap tb1 tb2

/- ### Emission-order keys (claim C7) -/

/-- Position key of a record in emission order: group 0 for paragraph
records and group 1 for table records, then the 1-based coordinates,
with kind tags placing a count-mismatch record after the loop whose rows
or cells it counts. -/
def recKey : DiffRecord → List Nat
  | .parTextDiff i _ _ => [0, i, 0, 0, 0, 0]
  | .parCommentDiff i _ _ => [0, i, 1, 0, 0, 0]
  | .tableCellDiff t r c _ _ => [1, t, 0, r, 0, c]
  | .rowCountMismatch t r _ _ => [1, t, 0, r, 1, 0]
  | .tableRowCountMismatch t _ _ => [1, t, 1, 0, 0, 0]

/-- Lexicographic comparison of position keys. -/
def lexLe : List Nat → List Nat → Bool
  | [], _ => true
  | _ :: _, [] => false
  | a :: as, b :: bs => if a < b then true else if a = b then lexLe as bs else false

theorem lexLe_head_lt {a b : Nat} (as bs : List Nat) (h : a < b) :
    lexLe (a :: as) (b :: bs) = true := by
  simp [lexLe, h]

theorem lexLe_head_eq {a : Nat} (as bs : List Nat) (h : lexLe as bs = true) :
    lexLe (a :: as) (a :: bs) = true := by
  simp [lexLe, h]

/-- The order relation claim C7 is stated in: emission keys compare
lexicographically. -/
def keyLe (a b : DiffRecord) : Prop := lexLe (recKey a) (recKey b) = true

theorem flatMap_range_pairwise {α : Type} (R : α → α → Prop) (f : Nat → List α) :
    ∀ n : Nat, (∀ i, i < n → (f i).Pairwise R) →
      (∀ i j a b, i < j → j < n → a ∈ f i → b ∈ f j → R a b) →
      ((List.range n).flatMap f).Pairwise R
  | 0, _, _ => by simp
  | n + 1, h1, h2 => by
    rw [List.range_succ, List.flatMap_append, List.pairwise_append]
    refine ⟨flatMap_range_pairwise R f n (fun i hi => h1 i (Nat.lt_succ_of_lt hi))
      (fun i j a b hij hj ha hb => h2 i j a b hij (Nat.lt_succ_of_lt hj) ha hb), ?_, ?_⟩
    · simp only [List.flatMap_cons, List.flatMap_nil, List.append_nil]
      exact h1 n (Nat.lt_succ_self n)
    · intro a ha b hb
      rw [List.mem_flatMap] at ha
      obtain ⟨i, hi, hai⟩ := ha
      simp only [List.flatMap_cons, List.flatMap_nil, List.append_nil] at hb
      exact h2 i n a b (List.mem_range.mp hi) (Nat.lt_succ_self n) hai hb

theorem mem_parBlock {a : DiffRecord} {i : Nat} {e1 e2 : String × List String}
    (h : a ∈ parBlock i e1 e2) : ∃ k, recKey a = [0, i + 1, k, 0, 0, 0] := by
  unfold parBlock at h
  rw [List.mem_append] at h
  rcases h with h | h
  · rcases eq_or_ne e1.1 e2.1 with he | he
    · rw [if_neg (not_not_intro he)] at h
      exact absurd h (List.not_mem_nil a)
    · rw [if_pos he, List.mem_singleton] at h
      subst h
      exact ⟨0, rfl⟩
  · rcases eq_or_ne e1.2 e2.2 with he | he
    · rw [if_neg (not_not_intro he)] at h
      exact absurd h (List.not_mem_nil a)
    · rw [if_pos he, List.mem_singleton] at h
      subst h
      exact ⟨1, rfl⟩

theorem parBlock_pairwise (i : Nat) (e1 e2 : String × List String) :
    (parBlock i e1 e2).Pairwise keyLe := by
  unfold parBlock
  rcases eq_or_ne e1.1 e2.1 with h1 | h1 <;> rcases eq_or_ne e1.2 e2.2 with h2 | h2
  · rw [if_neg (not_not_intro h1), if_neg (not_not_intro h2)]
    exact List.Pairwise.nil
  · rw [if_neg (not_not_intro h1), if_pos h2, List.nil_append]
    exact List.pairwise_singleton _ _
  · rw [if_pos h1, if_neg (not_not_intro h2), List.append_nil]
    exact List.pairwise_singleton _ _
  · rw [if_pos h1, if_pos h2, List.singleton_append]
    refine List.Pairwise.cons ?_ (List.pairwise_singleton _ _)
    intro b hb
    rw [List.mem_singleton] at hb
    subst hb
    exact lexLe_head_eq _ _ (lexLe_head_eq _ _ (lexLe_head_lt _ _ (by decide)))

theorem compare_paragraphs_pairwise (p1 p2 : List (String × List String)) :
    (compare_paragraphs p1 p2).Pairwise keyLe := by
  unfold compare_paragraphs
  apply flatMap_range_pairwise
  · intro i _
    exact parBlock_pairwise i _ _
  · intro i j a b hij _ ha hb
    obtain ⟨ka, hka⟩ := mem_parBlock ha
    obtain ⟨kb, hkb⟩ := mem_parBlock hb
    unfold keyLe
    rw [hka, hkb]
    exact lexLe_head_eq _ _ (lexLe_head_lt _ _ (Nat.succ_lt_succ hij))

theorem mem_cellBlock {a : DiffRecord} {t r c : Nat} {row1 row2 : List String}
    (h : a ∈ (if row1.getD c "" ≠ row2.getD c "" then
      [DiffRecord.tableCellDiff (t + 1) (r + 1) (c + 1) (row1.getD c "") (row2.getD c "")]
    else [])) :
    recKey a = [1, t + 1, 0, r + 1, 0, c + 1] := by
  rcases eq_or_ne (row1.getD c "") (row2.getD c "") with he | he
  · rw [if_neg (not_not_intro he)] at h
    exact absurd h (List.not_mem_nil a)
  · rw [if_pos he, List.mem_singleton] at h
    subst h
    rfl

theorem mem_compareCells {a : DiffRecord} {t r : Nat} {row1 row2 : List String}
    (h : a ∈ compareCells t r row1 row2) :
    ∃ c, recKey a = [1, t + 1, 0, r + 1, 0, c] := by
  unfold compareCells at h
  rw [List.mem_flatMap] at h
  obtain ⟨c, _, ha⟩ := h
  exact ⟨c + 1, mem_cellBlock ha⟩

theorem mem_compareRow {a : DiffRecord} {t r : Nat} {row1 row2 : List String}
    (h : a ∈ compareRow t r row1 row2) :
    ∃ k c, recKey a = [1, t + 1, 0, r + 1, k, c] := by
  unfold compareRow at h
  rw [List.mem_append] at h
  rcases h with h | h
  · obtain ⟨c, hk⟩ := mem_compareCells h
    exact ⟨0, c, hk⟩
  · rcases eq_or_ne row1.length row2.length with he | he
    · rw [if_neg (not_not_intro he)] at h
      exact absurd h (List.not_mem_nil a)
    · rw [if_pos he, List.mem_singleton] at h
      subst h
      exact ⟨1, 0, rfl⟩

theorem mem_compareTable {a : DiffRecord} {t : Nat} {tb1 tb2 : List (List String)}
    (h : a ∈ compareTable t tb1 tb2) :
    ∃ rest, recKey a = 1 :: (t + 1) :: rest := by
  unfold compareTable at h
  rw [List.mem_append] at h
  rcases h with h | h
  · rw [List.mem_flatMap] at h
    obtain ⟨r, _, ha⟩ := h
    obtain ⟨k, c, hk⟩ := mem_compareRow ha
    exact ⟨[0, r + 1, k, c], hk⟩
  · rcases eq_or_ne tb1.length tb2.length with he | he
    · rw [if_neg (not_not_intro he)] at h
      exact absurd h (List.not_mem_nil a)
    · rw [if_pos he, List.mem_singleton] at h
      subst h
      exact ⟨[1, 0, 0, 0], rfl⟩

theorem mem_compare_tables {a : DiffRecord} {tb1 tb2 : List (List (List String))}
    (h : a ∈ compare_tables tb1 tb2) : ∃ rest, recKey a = 1 :: rest := by
  unfold compare_tables at h
  rw [List.mem_flatMap] at h
  obtain ⟨t, _, ha⟩ := h
  obtain ⟨rest, hk⟩ := mem_compareTable ha
  exact ⟨(t + 1) :: rest, hk⟩

theorem mem_compare_paragraphs {a : DiffRecord} {p1 p2 : List (String × List String)}
    (h : a ∈ compare_paragraphs p1 p2) : ∃ rest, recKey a = 0 :: rest := by
  unfold compare_paragraphs at h
  rw [List.mem_flatMap] at h
  obtain ⟨i, _, ha⟩ := h
  obtain ⟨k, hk⟩ := mem_parBlock ha
  exact ⟨[i + 1, k, 0, 0, 0], hk⟩

theorem compareCells_pairwise (t r : Nat) (row1 row2 : List String) :
    (compareCells t r row1 row2).Pairwise keyLe := by
  unfold compareCells
  apply flatMap_range_pairwise
  · intro c _
    rcases eq_or_ne (row1.getD c "") (row2.getD c "") with he | he
    · rw [if_neg (not_not_intro he)]
      exact List.Pairwise.nil
    · rw [if_pos he]
      exact List.pairwise_singleton _ _
  · intro i j a b hij _ ha hb
    have hka := mem_cellBlock ha
    have hkb := mem_cellBlock hb
    unfold keyLe
    rw [hka, hkb]
    exact lexLe_head_eq _ _ (lexLe_head_eq _ _ (lexLe_head_eq _ _ (lexLe_head_eq _ _
      (lexLe_head_eq _ _ (lexLe_head_lt _ _ (Nat.succ_lt_succ hij))))))

theorem compareRow_pairwise (t r : Nat) (row1 row2 : List String) :
    (compareRow t r row1 row2).Pairwise keyLe := by
  unfold compareRow
  rw [List.pairwise_append]
  refine ⟨compareCells_pairwise t r row1 row2, ?_, ?_⟩
  · rcases eq_or_ne row1.length row2.length with he | he
    · rw [if_neg (not_not_intro he)]
      exact List.Pairwise.nil
    · rw [if_pos he]
      exact List.pairwise_singleton _ _
  · intro a ha b hb
    obtain ⟨c, hka⟩ := mem_compareCells ha
    rcases eq_or_ne row1.length row2.length with he | he
    · rw [if_neg (not_not_intro he)] at hb
      exact absurd hb (List.not_mem_nil b)
    · rw [if_pos he, List.mem_singleton] at hb
      subst hb
      unfold keyLe
      rw [hka]
      exact lexLe_head_eq _ _ (lexLe_head_eq _ _ (lexLe_head_eq _ _ (lexLe_head_eq _ _
        (lexLe_head_lt _ _ (by decide)))))

theorem compareTable_pairwise (t : Nat) (tb1 tb2 : List (List String)) :
    (compareTable t tb1 tb2).Pairwise keyLe := by
  unfold compareTable
  rw [List.pairwise_append]
  refine ⟨?_, ?_, ?_⟩
  · apply flatMap_range_pairwise
    · intro r _
      exact compareRow_pairwise t r _ _
    · intro i j a b hij _ ha hb
      obtain ⟨ka, ca, hka⟩ := mem_compareRow ha
      obtain ⟨kb, cb, hkb⟩ := mem_compareRow hb
      unfold keyLe
      rw [hka, hkb]
      exact lexLe_head_eq _ _ (lexLe_head_eq _ _ (lexLe_head_eq _ _
        (lexLe_head_lt _ _ (Nat.succ_lt_succ hij))))
  · rcases eq_or_ne tb1.length tb2.length with he | he
    · rw [if_neg (not_not_intro he)]
      exact List.Pairwise.nil
    · rw [if_pos he]
      exact List.pairwise_singleton _ _
  · intro a ha b hb
    rw [List.mem_flatMap] at ha
    obtain ⟨r, _, har⟩ := ha
    obtain ⟨ka, ca, hka⟩ := mem_compareRow har
    rcases eq_or_ne tb1.length tb2.length with he | he
    · rw [if_neg (not_not_intro he)] at hb
      exact absurd hb (List.not_mem_nil b)
    · rw [if_pos he, List.mem_singleton] at hb
      subst hb
      unfold keyLe
      rw [hka]
      exact lexLe_head_eq _ _ (lexLe_head_eq _ _ (lexLe_head_lt _ _ (by decide)))

theorem compare_tables_pairwise (tb1 tb2 : List (List (List String))) :
    (compare_tables tb1 tb2).Pairwise keyLe := by
  unfold compare_tables
  apply flatMap_range_pairwise
  · intro t _
    exact compareTable_pairwise t _ _
  · intro i j a b hij _ ha hb
    obtain ⟨ra, hka⟩ := mem_compareTable ha
    obtain ⟨rb, hkb⟩ := mem_compareTable hb
    unfold keyLe
    rw [hka, hkb]
    exact lexLe_head_eq _ _ (lexLe_head_lt _ _ (Nat.succ_lt_succ hij))

/-- Claim C7: the combined output (all paragraph records followed by all
table records, as the app displays them) is ordered by the emission key:
every paragraph record precedes every table record, paragraph records
carry ascending paragraph indices, and table records are ordered by
table, then row, then cell, with each count-mismatch record placed after
the loop it follows. The comparison is a pure function, so two runs on
identical inputs produce this identical ordered output. -/
theorem claim_c7_deterministic_order (p1 p2 : List (String × List String))
    (tb1 tb2 : List (List (List String))) :
    (compare_paragraphs p1 p2 ++ compare_tables tb1 tb2).Pairwise keyLe := by
  rw [List.pairwise_append]
  refine ⟨compare_paragraphs_pairwise p1 p2, compare_tables_pairwise tb1 tb2, ?_⟩
  intro a ha b hb
  obtain ⟨ra, hka⟩ := mem_compare_paragraphs ha
  obtain ⟨rb, hkb⟩ := mem_compare_tables hb
  unfold keyLe
  rw [hka, hkb]
  exact lexLe_head_lt _ _ (by decide)

/-- Claim C8: when doc A has 3 paragraphs and doc B consists of those same
3 paragraphs followed by 2 extra ones, the comparison emits exactly two
`ParagraphTextDiff` records, at 1-based indices 4 and 5, each with doc A's
side equal to the empty string, when the extra paragraphs are non-empty;
and no record at all when the extra paragraphs are empty. -/
theorem claim_c8_length_asymmetry (p1 : List (String × List String)) (t4 t5 : String)
    (hlen : p1.length = 3) (h4 : t4 ≠ "") (h5 : t5 ≠ "") :
    compare_paragraphs p1 (p1 ++ [(t4, []), (t5, [])]) =
        [DiffRecord.parTextDiff 4 "" t4, DiffRecord.parTextDiff 5 "" t5] ∧
      compare_paragraphs p1 (p1 ++ [("", []), ("", [])]) = [] := by
  have h4' : ("" : String) ≠ t4 := fun h => h4 h.symm
  have h5' : ("" : String) ≠ t5 := fun h => h5 h.symm
  constructor
  · rw [compare_paragraphs_append]
    simp [show List.range 2 = [0, 1] from rfl, parBlock, hlen, h4', h5']
  · rw [compare_paragraphs_append]
    simp [show List.range 2 = [0, 1] from rfl, parBlock]

/-- Witness for claim C8 at a concrete input. -/
theorem claim_c8_length_asymmetry_witness :
    compare_paragraphs [("a", []), ("b", []), ("c", [])]
        ([("a", []), ("b", []), ("c", [])] ++ [("d", []), ("e", [])]) =
        [DiffRecord.parTextDiff 4 "" "d", DiffRecord.parTextDiff 5 "" "e"] ∧
      compare_paragraphs [("a", []), ("b", []), ("c", [])]
        ([("a", []), ("b", []), ("c", [])] ++ [("", []), ("", [])]) = [] :=
  claim_c8_length_asymmetry [("a", []), ("b", []), ("c", [])] "d" "e" rfl
    (by decide) (by decide)

/-- Claim C3: comparing a well-formed document model against itself yields
zero diff records, both for the paragraph differ and the table differ. -/
theorem claim_c3_self_comparison_empty (p : List (String × List String))
    (tb : List (List (List String))) :
    compare_paragraphs p p = [] ∧ compare_tables tb tb = [] :=
  ⟨compare_paragraphs_self p, compare_tables_self tb⟩

/-- Claim C6: with doc A holding one table with single row `["x","y"]` and
doc B holding no tables, the table differ emits exactly two cell diffs
against the empty string, one row-count mismatch (2 vs 0 cells), and one
table row-count mismatch (1 vs 0 rows), in that order, because the missing
table degrades to an empty table with zero rows. -/
theorem claim_c6_missing_table_degrades :
    compare_tables [[["x", "y"]]] [] =
      [DiffRecord.tableCellDiff 1 1 1 "x" "", DiffRecord.tableCellDiff 1 1 2 "y" "",
       DiffRecord.rowCountMismatch 1 1 2 0, DiffRecord.tableRowCountMismatch 1 1 0] := by
  decide

/- ### Extraction claims -/

theorem extract_eq_filter_map (paras : List Para) (comments : String → Option String) :
    extract_docx_paragraphs_and_comments paras comments =
      (paras.filter fun p => get_full_paragraph_text p ≠ "").map
        fun p => (get_full_paragraph_text p, commentTexts p.xml comments) := by
  induction paras with
  | nil => rfl
  | cons p ps ih =>
    by_cases h : get_full_paragraph_text p = ""
    · simp [extract_docx_paragraphs_and_comments, List.filter_cons, h] at ih ⊢
      exact ih
    · simp [extract_docx_paragraphs_and_comments, List.filter_cons, h] at ih ⊢
      exact ih

/-- Claim C5: a paragraph whose extracted full text is empty is omitted
from the extracted sequence entirely: extraction equals the map over only
the paragraphs with non-empty full text, so the result's length is the
count of paragraphs with non-empty full text (a 5-paragraph document with
1 fully empty paragraph yields a 4-element sequence). -/
theorem claim_c5_empty_paragraphs_dropped (paras : List Para)
    (comments : String → Option String) :
    extract_docx_paragraphs_and_comments paras comments =
        (paras.filter fun p => get_full_paragraph_text p ≠ "").map
          (fun p => (get_full_paragraph_text p, commentTexts p.xml comments)) ∧
      (extract_docx_paragraphs_and_comments paras comments).length =
        paras.countP fun p => get_full_paragraph_text p ≠ "" := by
  refine ⟨extract_eq_filter_map paras comments, ?_⟩
  rw [extract_eq_filter_map paras comments, List.length_map,
    List.countP_eq_length_filter]

/-- Claim C9: a failure of the embedded-field extraction step is not
propagated: `get_full_paragraph_text` returns the stripped plain text on
the failure branch, and when field extraction succeeds with non-empty
text it returns the plain text plus a space plus the field text,
stripped. -/
theorem claim_c9_field_failure_best_effort (text sdt_text : String)
    (h : sdt_text ≠ "") :
    get_full_paragraph_textE text (Except.error ()) = pyStrip text ∧
      get_full_paragraph_textE text (Except.ok sdt_text) =
        pyStrip (text ++ " " ++ sdt_text) := by
  refine ⟨rfl, ?_⟩
  show pyStrip (if sdt_text ≠ "" then text ++ " " ++ sdt_text else text) =
    pyStrip (text ++ " " ++ sdt_text)
  rw [if_pos h]

/-- Witness for claim C9 at a concrete input. -/
theorem claim_c9_field_failure_best_effort_witness :
    get_full_paragraph_textE "plain" (Except.error ()) = pyStrip "plain" ∧
      get_full_paragraph_textE "plain" (Except.ok "field") =
        pyStrip ("plain" ++ " " ++ "field") :=
  claim_c9_field_failure_best_effort "plain" "field" (by decide)

/-- Claim C10: with one content control nested inside another control's
content region, the extractor includes the inner control's text twice:
the outer control contributes its content region's full concatenated
text `u ++ t` (in which the inner text `t` already occurs), and the
nested control contributes `t` once more as its own entry, because the
scan iterates over all content-control nodes including nested ones while
each node's content text is gathered from all of its descendants. -/
theorem claim_c10_nested_control_counted_twice (u t : String)
    (hut : pyStrip (u ++ t) ≠ "") (ht : pyStrip t ≠ "") :
    get_text_from_content_controls (nestedSdtDoc u t) =
      pyStrip (u ++ t) ++ " " ++ pyStrip t := by
  have htext1 : XmlE.itertext (XmlE.mk (wTag "sdtContent") [] u
      [XmlE.mk (wTag "sdt") [] "" [XmlE.mk (wTag "sdtContent") [] t [] ""] ""] "") =
      u ++ t := by
    simp [XmlE.itertext, XmlE.itertextList, XmlE.tail, String.append_empty]
  have htext2 : XmlE.itertext (XmlE.mk (wTag "sdtContent") [] t [] "") = t := by
    simp [XmlE.itertext, XmlE.itertextList, String.append_empty]
  have hiter : XmlE.iterTag (wTag "sdt") (nestedSdtDoc u t) =
      [XmlE.mk (wTag "sdt") [] ""
        [XmlE.mk (wTag "sdtContent") [] u
          [XmlE.mk (wTag "sdt") [] ""
            [XmlE.mk (wTag "sdtContent") [] t [] ""] ""] ""] "",
       XmlE.mk (wTag "sdt") [] ""
        [XmlE.mk (wTag "sdtContent") [] t [] ""] ""] := rfl
  have hf1 : sdtEntry (XmlE.mk (wTag "sdt") [] ""
      [XmlE.mk (wTag "sdtContent") [] u
        [XmlE.mk (wTag "sdt") [] ""
          [XmlE.mk (wTag "sdtContent") [] t [] ""] ""] ""] "") =
      some (pyStrip (u ++ t)) := by
    show (if pyStrip (XmlE.itertext (XmlE.mk (wTag "sdtContent") [] u
        [XmlE.mk (wTag "sdt") [] "" [XmlE.mk (wTag "sdtContent") [] t [] ""] ""] "")) ≠ ""
      then some (pyStrip (XmlE.itertext (XmlE.mk (wTag "sdtContent") [] u
        [XmlE.mk (wTag "sdt") [] "" [XmlE.mk (wTag "sdtContent") [] t [] ""] ""] "")))
      else none) = some (pyStrip (u ++ t))
    rw [htext1, if_pos hut]
  have hf2 : sdtEntry (XmlE.mk (wTag "sdt") [] ""
      [XmlE.mk (wTag "sdtContent") [] t [] ""] "") = some (pyStrip t) := by
    show (if pyStrip (XmlE.itertext (XmlE.mk (wTag "sdtContent") [] t [] "")) ≠ ""
      then some (pyStrip (XmlE.itertext (XmlE.mk (wTag "sdtContent") [] t [] "")))
      else none) = some (pyStrip t)
    rw [htext2, if_pos ht]
  unfold get_text_from_content_controls
  rw [hiter, List.filterMap_cons_some hf1, List.filterMap_cons_some hf2,
    List.filterMap_nil]
  simp [String.intercalate, String.intercalate.go]

/-- Witness for claim C10 at a concrete input. -/
theorem claim_c10_nested_control_counted_twice_witness :
    get_text_from_content_controls (nestedSdtDoc "A " "B") =
      pyStrip ("A " ++ "B") ++ " " ++ pyStrip "B" :=
  claim_c10_nested_control_counted_twice "A " "B" (by decide) (by decide)
